import Mathlib

/-!
Verification of the multi-trace clock synchronization planner
(`ui/src/core_plugins/multi_trace_open/multi_trace_controller.ts` together
with the data model of `multi_trace_types.ts`).

The TypeScript is embedded shallowly: the mutable `MultiTraceController` is
modelled as a pure state-transformer on `ControllerState`; JS `Map`s keyed by
uuid are modelled as first-match lookups over lists (identical to JS `Map`
semantics whenever uuids are distinct, which `uuidv4` guarantees in the
source); the `redrawModal()` rendering callback has no observable effect on
the controller state and is dropped.
-/

/-- `ClockInfo` from multi_trace_types.ts: one clock domain with its
snapshot count. -/
structure ClockInfo where
  name : String
  count : Nat
deriving DecidableEq, Repr

/-- The `syncMode` field of an analyzed trace: `'AUTOMATIC' | 'MANUAL'`. -/
inductive SyncMode where
  | automatic
  | manual
deriving DecidableEq, Repr

/-- The `syncClock` payload of a `SYNC_TO_OTHER` configuration. -/
structure SyncClock where
  fromClock : String
  toTraceUuid : String
  toClock : String
deriving DecidableEq, Repr

/-- `SyncConfig` from multi_trace_types.ts: tagged union of
`{syncMode: 'ROOT', rootClock}` and `{syncMode: 'SYNC_TO_OTHER', syncClock?}`
(the `syncClock` field is optional in the source, hence `Option`). -/
inductive SyncConfig where
  | root (rootClock : String)
  | syncToOther (syncClock : Option SyncClock)
deriving DecidableEq, Repr

/-- The part of a DOM `File` the controller reads: display name and size. -/
structure FileRef where
  name : String
  size : Nat
deriving DecidableEq, Repr

/-- The status-discriminated payload of a `TraceFile`
(`not-analyzed | analyzing | analyzed | error`). Progress is a fraction;
it is never inspected by the planner. -/
inductive TraceStatus where
  | notAnalyzed
  | analyzing (progress : Rat)
  | analyzed (format : String) (clocks : List ClockInfo)
      (syncMode : SyncMode) (syncConfig : SyncConfig)
  | error (message : String)
deriving DecidableEq, Repr

/-- A `TraceFile` record: uuid, backing file, and status payload. -/
structure TraceFile where
  uuid : String
  file : FileRef
  status : TraceStatus
deriving DecidableEq, Repr

/-- The `TraceFileAnalyzed` narrowing: an analyzed record with its payload
flattened, as produced by the `status === 'analyzed'` type-guard filter in
`recomputeSync`. -/
structure TraceFileAnalyzed where
  uuid : String
  file : FileRef
  format : String
  clocks : List ClockInfo
  syncMode : SyncMode
  syncConfig : SyncConfig
deriving DecidableEq, Repr

/-- The observable state of a `MultiTraceController`: the ordered record
set (`wrappers`), the selection, and the global `syncError`. -/
structure ControllerState where
  wrappers : List TraceFile
  selectedUuid : Option String
  syncError : Option String
deriving DecidableEq, Repr

/-- The `trace is TraceFileAnalyzed` type guard (controller line 97-99). -/
def asAnalyzed (t : TraceFile) : Option TraceFileAnalyzed :=
  match t.status with
  | .analyzed fmt clocks mode cfg => some ⟨t.uuid, t.file, fmt, clocks, mode, cfg⟩
  | _ => none

/-- `analyzedTraces` (controller lines 95-99): the analyzed records in
insertion order. -/
def analyzedOf (s : ControllerState) : List TraceFileAnalyzed :=
  s.wrappers.filterMap asAnalyzed

/-- `manualTraces` (controller lines 101-103). -/
def manualTracesOf (s : ControllerState) : List TraceFileAnalyzed :=
  (analyzedOf s).filter (fun t => t.syncMode == SyncMode.manual)

/-- `automaticTraces` (controller lines 104-106). -/
def automaticTracesOf (s : ControllerState) : List TraceFileAnalyzed :=
  (analyzedOf s).filter (fun t => t.syncMode == SyncMode.automatic)

/-- `trace.syncConfig.syncMode === 'ROOT'`. -/
def isRootConfig : SyncConfig → Bool
  | .root _ => true
  | .syncToOther _ => false

/-- `manualRoots` (controller lines 109-111). -/
def manualRootsOf (s : ControllerState) : List TraceFileAnalyzed :=
  (manualTracesOf s).filter (fun t => isRootConfig t.syncConfig)

/-- The fields of an analyzed record that the graph/BFS part of
`recomputeSync` reads: uuid, clock names (`clocks.map(c => c.name)`,
controller line 125) and sync mode. -/
structure AView where
  uuid : String
  clockNames : List String
  syncMode : SyncMode
deriving DecidableEq, Repr

def toView (t : TraceFileAnalyzed) : AView :=
  ⟨t.uuid, t.clocks.map (·.name), t.syncMode⟩

def viewsOf (s : ControllerState) : List AView :=
  (analyzedOf s).map toView

/-- `commonClocks.length > 0` (controller lines 134-137): the two traces
share at least one clock name (exact string equality). -/
def sharesClock (a b : AView) : Bool :=
  a.clockNames.any (fun n => b.clockNames.contains n)

/-- The adjacency list `adj.get(u)` built by the double loop of controller
lines 128-142. For the trace at index `i` the pushes arrive in pair order
`(0,1),(0,2),...`, which yields exactly all other indices sharing a clock,
in ascending index order. -/
def neighborsOf (views : List AView) (u : String) : List String :=
  match views.findIdx? (fun v => v.uuid == u) with
  | none => []
  | some i =>
    match views.get? i with
    | none => []
    | some vi =>
      (views.enum.filter (fun p => p.1 != i && sharesClock vi p.2)).map
        (fun p => p.2.uuid)

/-- `adj.get(u)?.length ?? 0` (controller lines 156-157). -/
def degreeOf (views : List AView) (u : String) : Nat :=
  (neighborsOf views u).length

/-- `clocksByUuid.get(u)` (controller line 125), as the list of clock names
in insertion order; `Set` deduplication affects neither membership tests nor
first-match search, so the plain list is kept. -/
def clockNamesOf (views : List AView) (u : String) : List String :=
  ((views.find? (fun v => v.uuid == u)).map (·.clockNames)).getD []

/-- `tracesForHeuristic` (controller lines 152-153). -/
def tracesForHeuristicOf (s : ControllerState) : List TraceFileAnalyzed :=
  if (automaticTracesOf s).length > 0 then automaticTracesOf s else analyzedOf s

/-- `rootUuid` determination (controller lines 144-162): the unique manual
root if exactly one exists, else — for a nonempty analyzed set — the
`reduce` over `tracesForHeuristic` keeping the trace with the strictly
larger degree (so ties move to the later trace). -/
def rootUuidOf (s : ControllerState) : Option String :=
  if (manualRootsOf s).length = 1 then
    (manualRootsOf s).head?.map (·.uuid)
  else if (analyzedOf s).length > 0 then
    match tracesForHeuristicOf s with
    | [] => none
    | t :: ts =>
      some ((ts.foldl (fun a b =>
        if degreeOf (viewsOf s) b.uuid < degreeOf (viewsOf s) a.uuid
        then a else b) t).uuid)
  else none

/-- One neighbor visit of the BFS inner loop (controller lines 197-222):
accumulator is (visited, newConfigs, traces pushed to the queue). An unseen
child is marked visited; an `AUTOMATIC` child sharing a clock with the
parent gets `SYNC_TO_OTHER` on the first clock name of the parent's set that
the child also has; every unseen child is pushed, manual or not. -/
def bfsChildStep (views : List AView) (parentUuid : String)
    (acc : List String × List (String × SyncConfig) × List String)
    (childUuid : String) :
    List String × List (String × SyncConfig) × List String :=
  if acc.1.contains childUuid then acc
  else
    let visited := acc.1 ++ [childUuid]
    let cfgs :=
      match views.find? (fun v => v.uuid == childUuid) with
      | some childView =>
        if childView.syncMode == SyncMode.automatic then
          match (clockNamesOf views parentUuid).find?
              (fun c => (clockNamesOf views childUuid).contains c) with
          | some commonClock =>
            acc.2.1 ++ [(childUuid,
              SyncConfig.syncToOther (some ⟨commonClock, parentUuid, commonClock⟩))]
          | none => acc.2.1
        else acc.2.1
      | none => acc.2.1
    (visited, cfgs, acc.2.2 ++ [childUuid])

/-- The BFS `while` loop (controller lines 193-224), with explicit fuel.
Each uuid is enqueued at most once (only when newly added to `visited`), so
`views.length + 1` pops always drain the queue and the fuel never runs out
on the states the controller produces. -/
def bfsLoop (views : List AView) :
    Nat → List String → List String →
    List (String × SyncConfig) → List (String × SyncConfig)
  | 0, _, _, cfgs => cfgs
  | _ + 1, [], _, cfgs => cfgs
  | fuel + 1, parentUuid :: rest, visited, cfgs =>
    let step := (neighborsOf views parentUuid).foldl
      (bfsChildStep views parentUuid) (visited, cfgs, [])
    bfsLoop views fuel (rest ++ step.2.2) step.1 step.2.1

/-- The BFS of controller lines 177-224: seed queue and visited set with the
root; if the root record is `AUTOMATIC` pre-set its config to `ROOT` on its
first listed clock (`clocks[0]?.name ?? ''`, line 189). -/
def bfsNewConfigs (views : List AView) (rootUuid : String) :
    List (String × SyncConfig) :=
  let initConfigs :=
    match views.find? (fun v => v.uuid == rootUuid) with
    | some rootView =>
      if rootView.syncMode == SyncMode.automatic then
        [(rootUuid, SyncConfig.root (rootView.clockNames.head?.getD ""))]
      else []
    | none => []
  bfsLoop views (views.length + 1) [rootUuid] [rootUuid] initConfigs

/-- The set of configs the pass computes for automatic traces. The source's
`if (!rootUuid)` (controller line 164) treats both `undefined` and the empty
string as "no root" and skips the BFS; the plan is then empty. -/
def planOf (s : ControllerState) : List (String × SyncConfig) :=
  match rootUuidOf s with
  | none => []
  | some ru => if ru = "" then [] else bfsNewConfigs (viewsOf s) ru

/-- Application of the computed configs (controller lines 227-239): an
`AUTOMATIC` analyzed record takes its planned config, or defaults to `ROOT`
on its own first clock (`clocks[0]?.name ?? ''`). Everything else is left
alone. The degenerate no-root loop of lines 167-172 assigns exactly this
default, i.e. it coincides with applying the empty plan. -/
def applyNewConfigs (cfgs : List (String × SyncConfig)) (t : TraceFile) :
    TraceFile :=
  match t.status with
  | .analyzed fmt clocks .automatic _ =>
    let newConfig :=
      ((cfgs.find? (fun p => p.1 == t.uuid)).map (·.2)).getD
        (SyncConfig.root ((clocks.map (·.name)).head?.getD ""))
    { t with status := .analyzed fmt clocks SyncMode.automatic newConfig }
  | _ => t

def multiRootErrorMessage : String :=
  "Multiple manual root traces are not allowed."

/-- `MultiTraceController.recomputeSync` (controller lines 92-241): clear
`syncError`; abort with the multiple-manual-root error before touching any
config when more than one manual root exists; otherwise compute the plan
and rewrite every automatic analyzed record (planned config or default
root), leaving manual and non-analyzed records untouched. -/
def recomputeSync (s : ControllerState) : ControllerState :=
  if (manualRootsOf s).length > 1 then
    { s with syncError := some multiRootErrorMessage }
  else
    { s with
      syncError := none,
      wrappers := s.wrappers.map (applyNewConfigs (planOf s)) }

/-- `mapTraceType` (controller lines 36-43). -/
def mapTraceType (rawType : String) : String :=
  if rawType == "proto" then "Perfetto" else rawType

/-- `getErrorMessage` (controller lines 28-34); `err.includes('(ERR:fmt)')`
is modelled by `splitOn` producing more than one piece. -/
def getErrorMessage (e : String) : String :=
  if (e.splitOn "(ERR:fmt)").length > 1 then
    "The file opened doesn\x27t look like a Perfetto trace or any other supported trace format."
  else e

def multiSubTraceErrorMessage : String :=
  "This trace contains multiple sub-traces, which is not supported because recursive synchronization is tricky. Please open each sub-trace individually."

/-- The outcome of the engine interaction inside `analyzeTrace`: either the
trace-type leaf rows plus the clock rows, or a thrown error message. -/
inductive AnalyzeOutcome where
  | ok (leafNodes : List String) (clocks : List ClockInfo)
  | failed (message : String)
deriving DecidableEq, Repr

/-- `MultiTraceController.analyzeTrace` (controller lines 243-335) as a
function of the engine outcome: records not in `not-analyzed` are skipped;
failures and multi/zero-leaf traces become `error`; a successful single-leaf
analysis becomes `analyzed` in `AUTOMATIC` mode with the provisional config
`{syncMode: 'ROOT', rootClock: ''}` (lines 316-327). The transient
`analyzing` progress states have no bearing on the final record. -/
def analyzeTrace (t : TraceFile) (outcome : AnalyzeOutcome) : TraceFile :=
  match t.status with
  | .notAnalyzed =>
    match outcome with
    | .failed e => { t with status := .error (getErrorMessage e) }
    | .ok leafNodes clocks =>
      if leafNodes.length > 1 then
        { t with status := .error multiSubTraceErrorMessage }
      else
        match leafNodes with
        | [] => { t with status := .error "Could not determine trace type" }
        | leaf :: _ =>
          let st := TraceStatus.analyzed (mapTraceType leaf) clocks
            SyncMode.automatic (SyncConfig.root "")
          { t with status := st }
  | _ => t

/-- `MultiTraceController.addFiles` (controller lines 62-74): append one
fresh `not-analyzed` record per input file (uuids supplied externally,
modelling `uuidv4()`), analyze each new record, then run `recomputeSync`
once after all analyses complete. No duplicate-name check is performed. -/
def addFiles (s : ControllerState) (files : List FileRef)
    (freshUuids : List String) (analyzer : FileRef → AnalyzeOutcome) :
    ControllerState :=
  let newTraces := (files.zip freshUuids).map
    (fun p => ({ uuid := p.2, file := p.1, status := TraceStatus.notAnalyzed } : TraceFile))
  recomputeSync
    { s with wrappers :=
        s.wrappers ++ newTraces.map (fun t => analyzeTrace t (analyzer t.file)) }

/-- The fixed clock preference order the specification names. -/
def clockPreferenceOrder : List String :=
  ["BOOTTIME", "MONOTONIC", "MONOTONIC_RAW", "MONOTONIC_COARSE", "TSC",
   "REALTIME", "REALTIME_COARSE", "PERF"]

/-- Root choice exactly as the specification words it (step 4), kept
separate for comparison with `rootUuidOf`: the unique manual root if exactly
one exists; otherwise the first name of `clockPreferenceOrder` present in
some candidate trace's clock set selects as root the first candidate in
insertion order possessing it (candidates: automatic records if any exist,
else all analyzed records); none if no preferred clock occurs. -/
def specChosenRoot (s : ControllerState) : Option String :=
  if (manualRootsOf s).length = 1 then
    (manualRootsOf s).head?.map (·.uuid)
  else
    let candidates := tracesForHeuristicOf s
    match clockPreferenceOrder.find?
        (fun c => candidates.any (fun t => (t.clocks.map (·.name)).contains c)) with
    | some c =>
      (candidates.find? (fun t => (t.clocks.map (·.name)).contains c)).map (·.uuid)
    | none => none

/-- Well-clockedness of a config the pass writes on an automatic record
whose clock list is `clocks`: a root config carries one of the record's own
clock names, or the empty string exactly when the record has no clocks; a
sync config pairs identical from/to clock names present in the record's
list and in the target trace's list respectively. -/
def WrittenConfigOk (s : ControllerState) (clocks : List ClockInfo) :
    SyncConfig → Prop
  | .root c => c ∈ clocks.map (·.name) ∨ (c = "" ∧ clocks = [])
  | .syncToOther none => False
  | .syncToOther (some sc) =>
    sc.toClock = sc.fromClock ∧ sc.fromClock ∈ clocks.map (·.name) ∧
      ∃ a, a ∈ analyzedOf s ∧ a.uuid = sc.toTraceUuid ∧
        sc.toClock ∈ a.clocks.map (·.name)

/-- Invariant of the BFS plan entries: a root entry carries one of its
trace's clock names (or the empty fallback on a clockless trace); a sync
entry pairs a clock name shared by the configured trace and its parent. -/
def GoodEntry (views : List AView) (e : String × SyncConfig) : Prop :=
  match e.2 with
  | .root c => c ∈ clockNamesOf views e.1 ∨ (c = "" ∧ clockNamesOf views e.1 = [])
  | .syncToOther none => False
  | .syncToOther (some sc) =>
    sc.toClock = sc.fromClock ∧ sc.fromClock ∈ clockNamesOf views e.1 ∧
      sc.fromClock ∈ clockNamesOf views sc.toTraceUuid

/-- An analyzed record in automatic mode with the given clock names. -/
def mkAuto (u : String) (names : List String) : TraceFile :=
  ⟨u, ⟨u ++ ".pftrace", 1⟩,
    .analyzed "Perfetto" (names.map (fun n => ⟨n, 1⟩)) .automatic (.root "")⟩

/-- An analyzed record in manual mode with the given clock names/config. -/
def mkManual (u : String) (names : List String) (cfg : SyncConfig) : TraceFile :=
  ⟨u, ⟨u ++ ".pftrace", 1⟩,
    .analyzed "Perfetto" (names.map (fun n => ⟨n, 1⟩)) .manual cfg⟩

/-- Two automatic traces with the same single clock: the spec's rule picks
the first, the code's degree heuristic picks the second on the tie. -/
def exTieState : ControllerState :=
  ⟨[mkAuto "u1" ["BOOTTIME"], mkAuto "u2" ["BOOTTIME"]], none, none⟩

/-- A single automatic trace listing its clocks with the preferred one
last — the clock inventory of the repository unittest
"should select the highest priority clock for a single root trace". -/
def exPriorityState : ControllerState :=
  ⟨[mkAuto "u1" ["REALTIME_COARSE", "REALTIME", "MONOTONIC_RAW",
    "MONOTONIC_COARSE", "MONOTONIC", "BOOTTIME"]], none, none⟩

/-- Two automatic traces sharing a low- and a high-preference clock, the
low-preference one listed first — the clock inventory of the unittest
"should choose the highest priority common clock for sync". -/
def exCommonClockState : ControllerState :=
  ⟨[mkAuto "u1" ["REALTIME_COARSE", "BOOTTIME"],
    mkAuto "u2" ["REALTIME_COARSE", "BOOTTIME"]], none, none⟩

/-- An automatic trace u1 reachable from the root u3 only through the
manual trace u2 (u1 and u3 share no clock). -/
def exBridgeState : ControllerState :=
  ⟨[mkAuto "u1" ["A"],
    mkManual "u2" ["A", "B"] (.syncToOther none),
    mkAuto "u3" ["B"]], none, none⟩

/-- Two automatic traces with disjoint clock sets. -/
def exDisconnectedState : ControllerState :=
  ⟨[mkAuto "u1" ["X"], mkAuto "u2" ["Y"]], none, none⟩

/-- A single automatic analyzed trace with an empty clock list. -/
def exNoClocksState : ControllerState :=
  ⟨[mkAuto "u1" []], none, none⟩

/-- A single automatic trace with one clock. -/
def exSingleState : ControllerState :=
  ⟨[mkAuto "u1" ["BOOTTIME"]], none, none⟩

/-- Two manual roots plus an automatic trace. -/
def exConflictState : ControllerState :=
  ⟨[mkManual "u1" ["BOOTTIME"] (.root "BOOTTIME"),
    mkManual "u2" ["MONOTONIC"] (.root "MONOTONIC"),
    mkAuto "u3" ["BOOTTIME"]], none, none⟩

/-- A manual trace whose config references a nonexistent clock and trace,
next to an automatic trace. -/
def exManualState : ControllerState :=
  ⟨[mkManual "u1" ["BOOTTIME"]
      (.syncToOther (some ⟨"NO_SUCH_CLOCK", "no-such-uuid", "ALSO_NONE"⟩)),
    mkAuto "u2" ["BOOTTIME"]], none, none⟩

/-- A state already holding a record whose file is named "a". -/
def exDupState : ControllerState :=
  ⟨[⟨"u1", ⟨"a", 1⟩,
      .analyzed "Perfetto" [⟨"BOOTTIME", 1⟩] .automatic (.root "BOOTTIME")⟩],
    none, none⟩

/-- An analyzer that reports a single proto leaf with a BOOTTIME clock for
every file. -/
def exDupAnalyzer : FileRef → AnalyzeOutcome :=
  fun _ => .ok ["proto"] [⟨"BOOTTIME", 1⟩]

/-- The analyzed sync config of a record, if any. -/
def configOf (t : TraceFile) : Option SyncConfig :=
  match t.status with
  | .analyzed _ _ _ cfg => some cfg
  | _ => none

/-- The analyzed sync mode of a record, if any. -/
def syncModeOf (t : TraceFile) : Option SyncMode :=
  match t.status with
  | .analyzed _ _ mode _ => some mode
  | _ => none

/-- The action of `applyNewConfigs` on the analyzed narrowing of a record:
an automatic record takes its planned config or the default root on its own
first clock; a manual record is untouched. -/
def applyAnalyzed (cfgs : List (String × SyncConfig)) (a : TraceFileAnalyzed) :
    TraceFileAnalyzed :=
  if a.syncMode == SyncMode.automatic then
    let newConfig :=
      ((cfgs.find? (fun p => p.1 == a.uuid)).map (·.2)).getD
        (SyncConfig.root ((a.clocks.map (·.name)).head?.getD ""))
    { a with syncConfig := newConfig }
  else a

theorem recomputeSync_wrappers (s : ControllerState) :
    (recomputeSync s).wrappers =
      if (manualRootsOf s).length > 1 then s.wrappers
      else s.wrappers.map (applyNewConfigs (planOf s)) := by
  unfold recomputeSync
  split <;> rfl

theorem applyNewConfigs_manual (cfgs : List (String × SyncConfig))
    (u : String) (fr : FileRef) (fmt : String) (clocks : List ClockInfo)
    (cfg : SyncConfig) :
    applyNewConfigs cfgs ⟨u, fr, .analyzed fmt clocks .manual cfg⟩ =
      ⟨u, fr, .analyzed fmt clocks .manual cfg⟩ := rfl

theorem applyNewConfigs_automatic (cfgs : List (String × SyncConfig))
    (u : String) (fr : FileRef) (fmt : String) (clocks : List ClockInfo)
    (cfg : SyncConfig) :
    applyNewConfigs cfgs ⟨u, fr, .analyzed fmt clocks .automatic cfg⟩ =
      ⟨u, fr, .analyzed fmt clocks .automatic
        (((cfgs.find? (fun p => p.1 == u)).map (·.2)).getD
          (SyncConfig.root ((clocks.map (·.name)).head?.getD "")))⟩ := rfl

/-- A manual analyzed record passes through `recomputeSync` unchanged, at
its position, with its exact config. -/
theorem recompute_manual_unchanged (s : ControllerState) (i : Nat)
    (u : String) (fr : FileRef) (fmt : String) (clocks : List ClockInfo)
    (cfg : SyncConfig)
    (hget : s.wrappers.get? i = some ⟨u, fr, .analyzed fmt clocks .manual cfg⟩) :
    (recomputeSync s).wrappers.get? i =
      some ⟨u, fr, .analyzed fmt clocks .manual cfg⟩ := by
  rw [recomputeSync_wrappers]
  split
  · exact hget
  · rw [List.get?_eq_getElem?] at hget ⊢
    rw [List.getElem?_map, hget, Option.map_some']
    rw [applyNewConfigs_manual]

/-- C2: with more than one analyzed manual root, `recomputeSync` sets
exactly the string "Multiple manual root traces are not allowed." as the
global sync error and leaves the whole record list — in particular every
automatic record's configuration — untouched. -/
theorem c2_multiple_manual_roots_abort (s : ControllerState)
    (h : 1 < (manualRootsOf s).length) :
    (recomputeSync s).syncError =
      some "Multiple manual root traces are not allowed." ∧
    (recomputeSync s).wrappers = s.wrappers := by
  unfold recomputeSync
  rw [if_pos h]
  exact ⟨rfl, rfl⟩

theorem c2_multiple_manual_roots_abort_witness :
    1 < (manualRootsOf exConflictState).length ∧
    ((recomputeSync exConflictState).syncError =
      some "Multiple manual root traces are not allowed." ∧
    (recomputeSync exConflictState).wrappers = exConflictState.wrappers) :=
  ⟨by decide, c2_multiple_manual_roots_abort exConflictState (by decide)⟩

/-- C4: a MANUAL analyzed record is never mutated by the planner: whatever
its config — even one referencing nonexistent clocks and trace uuids — the
record emerges from `recomputeSync` byte-for-byte unchanged. -/
theorem c4_manual_untouched (s : ControllerState) (i : Nat)
    (u : String) (fr : FileRef) (fmt : String) (clocks : List ClockInfo)
    (cfg : SyncConfig)
    (hget : s.wrappers.get? i = some ⟨u, fr, .analyzed fmt clocks .manual cfg⟩) :
    (recomputeSync s).wrappers.get? i =
      some ⟨u, fr, .analyzed fmt clocks .manual cfg⟩ :=
  recompute_manual_unchanged s i u fr fmt clocks cfg hget

theorem c4_manual_untouched_witness :
    exManualState.wrappers.get? 0 = some ⟨"u1", ⟨"u1.pftrace", 1⟩,
      .analyzed "Perfetto" [⟨"BOOTTIME", 1⟩] .manual
        (.syncToOther (some ⟨"NO_SUCH_CLOCK", "no-such-uuid", "ALSO_NONE"⟩))⟩ ∧
    (recomputeSync exManualState).wrappers.get? 0 =
      some ⟨"u1", ⟨"u1.pftrace", 1⟩,
        .analyzed "Perfetto" [⟨"BOOTTIME", 1⟩] .manual
          (.syncToOther (some ⟨"NO_SUCH_CLOCK", "no-such-uuid", "ALSO_NONE"⟩))⟩ :=
  ⟨by decide,
    c4_manual_untouched exManualState 0 "u1" ⟨"u1.pftrace", 1⟩ "Perfetto"
      [⟨"BOOTTIME", 1⟩]
      (.syncToOther (some ⟨"NO_SUCH_CLOCK", "no-such-uuid", "ALSO_NONE"⟩))
      (by decide)⟩

/-- C6: in a pass that does not abort, an automatic analyzed record for
which the BFS plan holds no entry is forced to `ROOT` on its own first
listed clock name (empty string if it has no clocks). -/
theorem c6_default_root (s : ControllerState)
    (hcount : (manualRootsOf s).length ≤ 1) (i : Nat)
    (u : String) (fr : FileRef) (fmt : String) (clocks : List ClockInfo)
    (cfg : SyncConfig)
    (hget : s.wrappers.get? i = some ⟨u, fr, .analyzed fmt clocks .automatic cfg⟩)
    (hplan : (planOf s).find? (fun p => p.1 == u) = none) :
    (recomputeSync s).wrappers.get? i =
      some ⟨u, fr, .analyzed fmt clocks .automatic
        (SyncConfig.root ((clocks.map (·.name)).head?.getD ""))⟩ := by
  rw [recomputeSync_wrappers, if_neg (by omega)]
  rw [List.get?_eq_getElem?] at hget ⊢
  rw [List.getElem?_map, hget, Option.map_some']
  rw [applyNewConfigs_automatic]
  rw [hplan]
  rfl

theorem c6_default_root_witness :
    (manualRootsOf exDisconnectedState).length ≤ 1 ∧
    exDisconnectedState.wrappers.get? 0 = some ⟨"u1", ⟨"u1.pftrace", 1⟩,
      .analyzed "Perfetto" [⟨"X", 1⟩] .automatic (.root "")⟩ ∧
    (planOf exDisconnectedState).find? (fun p => p.1 == "u1") = none ∧
    (recomputeSync exDisconnectedState).wrappers.get? 0 =
      some ⟨"u1", ⟨"u1.pftrace", 1⟩,
        .analyzed "Perfetto" [⟨"X", 1⟩] .automatic (.root "X")⟩ :=
  ⟨by decide, by decide, by decide,
    c6_default_root exDisconnectedState (by decide) 0 "u1" ⟨"u1.pftrace", 1⟩
      "Perfetto" [⟨"X", 1⟩] (.root "") (by decide) (by decide)⟩

/-- C10: a record whose analysis completes successfully becomes `analyzed`
with `syncMode = AUTOMATIC` and the provisional config
`ROOT` with the empty-string root clock; analysis never produces MANUAL. -/
theorem c10_analysis_automatic (t : TraceFile) (outcome : AnalyzeOutcome)
    (fmt : String) (clocks : List ClockInfo) (mode : SyncMode)
    (cfg : SyncConfig)
    (h0 : t.status = .notAnalyzed)
    (h : (analyzeTrace t outcome).status = .analyzed fmt clocks mode cfg) :
    mode = SyncMode.automatic ∧ cfg = SyncConfig.root "" := by
  obtain ⟨u, fr, st⟩ := t
  simp only at h0
  subst h0
  cases outcome with
  | failed e => simp [analyzeTrace] at h
  | ok leaves clocksRows =>
    cases leaves with
    | nil => simp [analyzeTrace] at h
    | cons leaf rest =>
      cases rest with
      | nil =>
        simp [analyzeTrace] at h
        exact ⟨h.2.2.1.symm, h.2.2.2.symm⟩
      | cons b bs => simp [analyzeTrace] at h

theorem c10_analysis_automatic_witness :
    (⟨"u1", ⟨"a", 1⟩, .notAnalyzed⟩ : TraceFile).status = .notAnalyzed ∧
    (analyzeTrace ⟨"u1", ⟨"a", 1⟩, .notAnalyzed⟩
        (.ok ["proto"] [⟨"BOOTTIME", 1⟩])).status =
      .analyzed "Perfetto" [⟨"BOOTTIME", 1⟩] .automatic (.root "") ∧
    (SyncMode.automatic = SyncMode.automatic ∧
      SyncConfig.root "" = SyncConfig.root "") :=
  ⟨by decide, by decide,
    c10_analysis_automatic ⟨"u1", ⟨"a", 1⟩, .notAnalyzed⟩
      (.ok ["proto"] [⟨"BOOTTIME", 1⟩]) "Perfetto" [⟨"BOOTTIME", 1⟩]
      .automatic (.root "") (by decide) (by decide)⟩

/-- C1 counterexample: in `exTieState` (two automatic traces, the same
single clock BOOTTIME, no manual root) the spec's preference-order rule
picks the first trace u1, but `recomputeSync`'s most-connections `reduce`
moves to the later trace on the degree tie and picks u2. -/
theorem c1_root_choice_counterexample :
    (manualRootsOf exTieState).length = 0 ∧
    rootUuidOf exTieState = some "u2" ∧
    specChosenRoot exTieState = some "u1" := by decide

/-- C3: evaluation of the code at the unittest inventories. The repository
unittests "should select the highest priority clock for a single root
trace" and "should choose the highest priority common clock for sync"
require BOOTTIME in all three positions below; the code instead takes the
first listed clock (`clocks[0]?.name`) for the root and the first clock of
the parent's set shared with the child for the pairing, yielding
REALTIME_COARSE everywhere. -/
theorem c3_code_behavior_at_failing_inputs :
    ((recomputeSync exPriorityState).wrappers.map configOf =
      [some (.root "REALTIME_COARSE")]) ∧
    ((recomputeSync exCommonClockState).wrappers.map
        (fun t => (t.uuid, configOf t)) =
      [("u1", some (.syncToOther (some ⟨"REALTIME_COARSE", "u2", "REALTIME_COARSE"⟩))),
       ("u2", some (.root "REALTIME_COARSE"))]) := by decide

/-- C5 counterexample: in `exBridgeState` the BFS root is u3; the manual
trace u2 is reached as a child, traversed past, and the automatic trace u1
— which shares no clock with u3 — receives a `SYNC_TO_OTHER` config whose
parent is the MANUAL node u2. -/
theorem c5_manual_traversal_counterexample :
    (exBridgeState.wrappers.map (fun t => (t.uuid, syncModeOf t)) =
      [("u1", some .automatic), ("u2", some .manual), ("u3", some .automatic)]) ∧
    rootUuidOf exBridgeState = some "u3" ∧
    ((recomputeSync exBridgeState).wrappers.map (fun t => (t.uuid, configOf t)) =
      [("u1", some (.syncToOther (some ⟨"A", "u2", "A"⟩))),
       ("u2", some (.syncToOther none)),
       ("u3", some (.root "B"))]) := by decide

/-- C5 as the code has it: a MANUAL record reached as a child is never
given a configuration, but it IS traversed past — its neighbors are
enqueued through it, so an AUTOMATIC record can end up synced to a MANUAL
parent (witnessed by `exBridgeState`, where u1 is reachable from the root
u3 only through the manual trace u2 and receives `toTraceUuid = u2`). -/
theorem c5_manual_nodes_traversed (s : ControllerState) (i : Nat)
    (u : String) (fr : FileRef) (fmt : String) (clocks : List ClockInfo)
    (cfg : SyncConfig)
    (hget : s.wrappers.get? i = some ⟨u, fr, .analyzed fmt clocks .manual cfg⟩) :
    ((recomputeSync s).wrappers.get? i =
      some ⟨u, fr, .analyzed fmt clocks .manual cfg⟩) ∧
    ((recomputeSync exBridgeState).wrappers.get? 0).map configOf =
      some (some (.syncToOther (some ⟨"A", "u2", "A"⟩))) :=
  ⟨recompute_manual_unchanged s i u fr fmt clocks cfg hget, by decide⟩

theorem c5_manual_nodes_traversed_witness :
    exBridgeState.wrappers.get? 1 = some ⟨"u2", ⟨"u2.pftrace", 1⟩,
      .analyzed "Perfetto" [⟨"A", 1⟩, ⟨"B", 1⟩] .manual (.syncToOther none)⟩ ∧
    ((recomputeSync exBridgeState).wrappers.get? 1 =
      some ⟨"u2", ⟨"u2.pftrace", 1⟩,
        .analyzed "Perfetto" [⟨"A", 1⟩, ⟨"B", 1⟩] .manual (.syncToOther none)⟩ ∧
    ((recomputeSync exBridgeState).wrappers.get? 0).map configOf =
      some (some (.syncToOther (some ⟨"A", "u2", "A"⟩)))) :=
  ⟨by decide,
    c5_manual_nodes_traversed exBridgeState 1 "u2" ⟨"u2.pftrace", 1⟩
      "Perfetto" [⟨"A", 1⟩, ⟨"B", 1⟩] (.syncToOther none) (by decide)⟩

/-- C8 counterexample: on a clockless automatic analyzed trace the pass
writes `ROOT` with the empty-string rootClock, which is not a name present
in the (empty) clocks list. -/
theorem c8_clock_membership_counterexample :
    ((analyzedOf exNoClocksState).map (fun t => t.clocks) = [[]]) ∧
    ((recomputeSync exNoClocksState).wrappers.map
        (fun t => (t.uuid, configOf t)) = [("u1", some (.root ""))]) ∧
    ¬ ("" ∈ (([] : List ClockInfo).map (·.name))) := by decide

/-- C9 counterexample: `exDupState` already holds a record whose file is
named "a"; `addFiles` with another file named "a" creates the new record
and analyzes it — its final status is `analyzed` carrying the analyzer's
payload, not the per-record duplicate error, so duplicates are not
detected and the analyzer is invoked for them. -/
theorem c9_duplicates_counterexample :
    (exDupState.wrappers.map (fun t => t.file.name) = ["a"]) ∧
    ((addFiles exDupState [⟨"a", 1⟩] ["u2"] exDupAnalyzer).wrappers.map
        (fun t => (t.uuid, t.file.name, t.status)) =
      [("u1", "a", .analyzed "Perfetto" [⟨"BOOTTIME", 1⟩] .automatic
        (.syncToOther (some ⟨"BOOTTIME", "u2", "BOOTTIME"⟩))),
       ("u2", "a", .analyzed "Perfetto" [⟨"BOOTTIME", 1⟩] .automatic
        (.root "BOOTTIME"))]) := by decide

/-- C9 as the code has it: `addFiles` performs no duplicate-name detection.
Even when the incoming file's display name matches a record already in the
set, a fresh record is appended and the analyzer runs on it: on a
successful single-leaf analysis the new record ends the call `analyzed`
with the analyzer's format and clocks (its config then set by the planner),
never the per-record duplicate error. -/
theorem c9_no_duplicate_check (s : ControllerState) (f : FileRef)
    (u : String) (analyzer : FileRef → AnalyzeOutcome) (leaf : String)
    (clocks : List ClockInfo)
    (_hdup : ∃ t ∈ s.wrappers, t.file.name = f.name)
    (hok : analyzer f = .ok [leaf] clocks) :
    ∃ cfg, (addFiles s [f] [u] analyzer).wrappers.get? s.wrappers.length =
      some ⟨u, f, .analyzed (mapTraceType leaf) clocks .automatic cfg⟩ := by
  have hanalyze : analyzeTrace ⟨u, f, .notAnalyzed⟩ (analyzer f) =
      ⟨u, f, .analyzed (mapTraceType leaf) clocks .automatic (.root "")⟩ := by
    rw [hok]
    rfl
  have haddeq : addFiles s [f] [u] analyzer =
      recomputeSync { s with wrappers := s.wrappers ++
        [⟨u, f, .analyzed (mapTraceType leaf) clocks .automatic (.root "")⟩] } := by
    show recomputeSync { s with wrappers := s.wrappers ++
      [analyzeTrace ⟨u, f, .notAnalyzed⟩ (analyzer f)] } = _
    rw [hanalyze]
  rw [haddeq, recomputeSync_wrappers]
  split
  · exact ⟨.root "", by simp⟩
  · have hbase : ({ s with wrappers := s.wrappers ++
        [⟨u, f, .analyzed (mapTraceType leaf) clocks .automatic
          (.root "")⟩] } : ControllerState).wrappers[s.wrappers.length]? =
        some ⟨u, f, .analyzed (mapTraceType leaf) clocks .automatic (.root "")⟩ := by
      simp
    rw [List.get?_eq_getElem?, List.getElem?_map, hbase, Option.map_some',
      applyNewConfigs_automatic]
    exact ⟨_, rfl⟩

theorem c9_no_duplicate_check_witness :
    (∃ t ∈ exDupState.wrappers, t.file.name = "a") ∧
    exDupAnalyzer ⟨"a", 1⟩ = .ok ["proto"] [⟨"BOOTTIME", 1⟩] ∧
    (∃ cfg, (addFiles exDupState [⟨"a", 1⟩] ["u2"] exDupAnalyzer).wrappers.get? 1 =
      some ⟨"u2", ⟨"a", 1⟩,
        .analyzed (mapTraceType "proto") [⟨"BOOTTIME", 1⟩] .automatic cfg⟩) :=
  ⟨by decide, by decide,
    c9_no_duplicate_check exDupState ⟨"a", 1⟩ "u2" exDupAnalyzer "proto"
      [⟨"BOOTTIME", 1⟩] (by decide) (by decide)⟩

/-- The `reduce((a, b) => f(a) > f(b) ? a : b)` fold starting at `a` over
`l` returns `a` itself with every element of `l` strictly smaller, or an
element of `l` that is a maximum of `a :: l` and strictly exceeds every
element occurring after its position. -/
theorem foldl_pickMax_spec {α : Type} (f : α → Nat) (l : List α) (a : α) :
    ∃ r, l.foldl (fun x y => if f y < f x then x else y) a = r ∧
      ((r = a ∧ ∀ y ∈ l, f y < f a) ∨
       (∃ i, l.get? i = some r ∧ f a ≤ f r ∧
         (∀ j y, l.get? j = some y → f y ≤ f r) ∧
         (∀ j y, l.get? j = some y → i < j → f y < f r))) := by
  induction l generalizing a with
  | nil => exact ⟨a, rfl, Or.inl ⟨rfl, by simp⟩⟩
  | cons b l ih =>
    obtain ⟨r, hr, hcase⟩ := ih (if f b < f a then a else b)
    refine ⟨r, by simpa using hr, ?_⟩
    by_cases hfb : f b < f a
    · rw [if_pos hfb] at hcase
      rcases hcase with ⟨hra, hall⟩ | ⟨i, hi, har, hub, hstrict⟩
      · exact Or.inl ⟨hra, by
          intro y hy
          rcases List.mem_cons.mp hy with hyb | hyl
          · exact hyb ▸ hfb
          · exact hall y hyl⟩
      · refine Or.inr ⟨i + 1, hi, har, ?_, ?_⟩
        · intro j y hj
          cases j with
          | zero =>
            obtain rfl : b = y := by simpa using hj
            exact le_of_lt (lt_of_lt_of_le hfb har)
          | succ j' => exact hub j' y hj
        · intro j y hj hij
          cases j with
          | zero => omega
          | succ j' => exact hstrict j' y hj (by omega)
    · rw [if_neg hfb] at hcase
      have hab : f a ≤ f b := Nat.le_of_not_lt hfb
      rcases hcase with ⟨hra, hall⟩ | ⟨i, hi, har, hub, hstrict⟩
      · refine Or.inr ⟨0, by simp [hra], hra ▸ hab, ?_, ?_⟩
        · intro j y hj
          cases j with
          | zero =>
            obtain rfl : b = y := by simpa using hj
            simp [hra]
          | succ j' =>
            rw [hra]
            exact le_of_lt (hall y (List.get?_mem hj))
        · intro j y hj hij
          cases j with
          | zero => omega
          | succ j' =>
            rw [hra]
            exact hall y (List.get?_mem hj)
      · refine Or.inr ⟨i + 1, hi, le_trans hab har, ?_, ?_⟩
        · intro j y hj
          cases j with
          | zero =>
            obtain rfl : b = y := by simpa using hj
            exact har
          | succ j' => exact hub j' y hj
        · intro j y hj hij
          cases j with
          | zero => omega
          | succ j' => exact hstrict j' y hj (by omega)

/-- C1 as the code has it: with exactly one analyzed manual root, that
record is the root. Otherwise, with any analyzed records present, the root
is a member of the candidate list (automatic records if any, else all
analyzed records) whose connectivity-graph degree is maximal among the
candidates, and every candidate placed after it in insertion order has
strictly smaller degree (the `reduce` moves to the later trace on ties);
the clock preference order plays no role. -/
theorem c1_root_choice_amended (s : ControllerState) :
    ((manualRootsOf s).length = 1 →
      rootUuidOf s = (manualRootsOf s).head?.map (·.uuid)) ∧
    ((manualRootsOf s).length ≠ 1 → (analyzedOf s).length > 0 →
      ∃ i r, (tracesForHeuristicOf s).get? i = some r ∧
        rootUuidOf s = some r.uuid ∧
        (∀ j y, (tracesForHeuristicOf s).get? j = some y →
          degreeOf (viewsOf s) y.uuid ≤ degreeOf (viewsOf s) r.uuid) ∧
        (∀ j y, (tracesForHeuristicOf s).get? j = some y → i < j →
          degreeOf (viewsOf s) y.uuid < degreeOf (viewsOf s) r.uuid)) := by
  constructor
  · intro hone
    unfold rootUuidOf
    rw [if_pos hone]
  · intro hone hne
    cases hcands : tracesForHeuristicOf s with
    | nil =>
      exfalso
      have : tracesForHeuristicOf s ≠ [] := by
        unfold tracesForHeuristicOf
        split
        next hauto => exact List.ne_nil_of_length_pos hauto
        next => exact List.ne_nil_of_length_pos hne
      exact this hcands
    | cons t ts =>
      have hroot : rootUuidOf s =
          some ((ts.foldl (fun a b =>
            if degreeOf (viewsOf s) b.uuid < degreeOf (viewsOf s) a.uuid
            then a else b) t).uuid) := by
        unfold rootUuidOf
        rw [if_neg hone, if_pos hne, hcands]
      obtain ⟨r, hfold, hcase⟩ :=
        foldl_pickMax_spec (fun x => degreeOf (viewsOf s) x.uuid) ts t
      rw [hfold] at hroot
      rcases hcase with ⟨hra, hall⟩ | ⟨i, hi, _har, hub, hstrict⟩
      · refine ⟨0, r, by simp [hra], hroot, ?_, ?_⟩
        · intro j y hj
          cases j with
          | zero =>
            obtain rfl : t = y := by simpa using hj
            simp [hra]
          | succ j' =>
            rw [hra]
            exact le_of_lt (hall y (List.get?_mem hj))
        · intro j y hj hij
          cases j with
          | zero => omega
          | succ j' =>
            rw [hra]
            exact hall y (List.get?_mem hj)
      · refine ⟨i + 1, r, hi, hroot, ?_, ?_⟩
        · intro j y hj
          cases j with
          | zero =>
            obtain rfl : t = y := by simpa using hj
            exact _har
          | succ j' => exact hub j' y hj
        · intro j y hj hij
          cases j with
          | zero => omega
          | succ j' => exact hstrict j' y hj (by omega)

theorem c1_root_choice_amended_witness :
    ((manualRootsOf exTieState).length ≠ 1) ∧
    ((analyzedOf exTieState).length > 0) ∧
    (∃ i r, (tracesForHeuristicOf exTieState).get? i = some r ∧
      rootUuidOf exTieState = some r.uuid ∧
      (∀ j y, (tracesForHeuristicOf exTieState).get? j = some y →
        degreeOf (viewsOf exTieState) y.uuid ≤
          degreeOf (viewsOf exTieState) r.uuid) ∧
      (∀ j y, (tracesForHeuristicOf exTieState).get? j = some y → i < j →
        degreeOf (viewsOf exTieState) y.uuid <
          degreeOf (viewsOf exTieState) r.uuid)) :=
  ⟨by decide, by decide,
    (c1_root_choice_amended exTieState).2 (by decide) (by decide)⟩

theorem bfsChildStep_good (views : List AView) (pu cu : String)
    (acc : List String × List (String × SyncConfig) × List String)
    (h : ∀ e ∈ acc.2.1, GoodEntry views e) :
    ∀ e ∈ (bfsChildStep views pu acc cu).2.1, GoodEntry views e := by
  unfold bfsChildStep
  split
  · exact h
  · cases hfv : views.find? (fun v => v.uuid == cu) with
    | none => simpa [hfv] using h
    | some cv =>
      by_cases hmode : (cv.syncMode == SyncMode.automatic) = true
      · cases hfc : (clockNamesOf views pu).find?
            (fun c => (clockNamesOf views cu).contains c) with
        | none => simpa [hfv, hmode, hfc] using h
        | some commonClock =>
          simp only [hfv, hmode, hfc, if_pos]
          intro e he
          rcases List.mem_append.mp he with hacc | hnew
          · exact h e hacc
          · have he' : e = (cu,
                SyncConfig.syncToOther (some ⟨commonClock, pu, commonClock⟩)) := by
              simpa using hnew
            subst he'
            refine ⟨rfl, ?_, List.mem_of_find?_eq_some hfc⟩
            have := List.find?_some hfc
            simpa [List.elem_iff] using this
      · simpa [hfv, hmode] using h

theorem bfsFold_good (views : List AView) (pu : String) (ns : List String)
    (acc : List String × List (String × SyncConfig) × List String)
    (h : ∀ e ∈ acc.2.1, GoodEntry views e) :
    ∀ e ∈ (ns.foldl (bfsChildStep views pu) acc).2.1, GoodEntry views e := by
  induction ns generalizing acc with
  | nil => exact h
  | cons n ns ih =>
    exact ih (bfsChildStep views pu acc n) (bfsChildStep_good views pu n acc h)

theorem bfsLoop_good (views : List AView) (fuel : Nat) (q vis : List String)
    (cfgs : List (String × SyncConfig))
    (h : ∀ e ∈ cfgs, GoodEntry views e) :
    ∀ e ∈ bfsLoop views fuel q vis cfgs, GoodEntry views e := by
  induction fuel generalizing q vis cfgs with
  | zero => exact h
  | succ fuel ih =>
    cases q with
    | nil => exact h
    | cons pu rest =>
      exact ih _ _ _ (bfsFold_good views pu (neighborsOf views pu) (vis, cfgs, []) h)

theorem bfsNewConfigs_good (views : List AView) (ru : String) :
    ∀ e ∈ bfsNewConfigs views ru, GoodEntry views e := by
  unfold bfsNewConfigs
  apply bfsLoop_good
  split
  next rv hf =>
    split
    next hmode =>
      intro e he
      have he' : e = (ru, SyncConfig.root (rv.clockNames.head?.getD "")) := by
        simpa using he
      subst he'
      have hcn : clockNamesOf views ru = rv.clockNames := by
        unfold clockNamesOf
        rw [hf]
        rfl
      cases hnames : rv.clockNames with
      | nil => exact Or.inr ⟨by simp [hnames], by rw [hcn, hnames]⟩
      | cons c cs => exact Or.inl (by rw [hcn, hnames]; simp)
    next => simp
  next => simp

theorem planOf_good (s : ControllerState) :
    ∀ e ∈ planOf s, GoodEntry (viewsOf s) e := by
  unfold planOf
  cases rootUuidOf s with
  | none => simp
  | some ru =>
    by_cases hru : ru = ""
    · simp [hru]
    · simpa [hru] using bfsNewConfigs_good (viewsOf s) ru

theorem find?_toView_of_mem (l : List TraceFileAnalyzed) (a : TraceFileAnalyzed)
    (hnd : (l.map (·.uuid)).Nodup) (ha : a ∈ l) :
    (l.map toView).find? (fun v => v.uuid == a.uuid) = some (toView a) := by
  induction l with
  | nil => cases ha
  | cons b l ih =>
    rw [List.map_cons] at hnd ⊢
    by_cases hb : ((toView b).uuid == a.uuid) = true
    · have hbu : b.uuid = a.uuid := by simpa [toView] using hb
      rcases List.mem_cons.mp ha with rfl | hmem
      · simp [List.find?_cons, hb]
      · exfalso
        have h1 : b.uuid ∉ l.map (·.uuid) := (List.nodup_cons.mp hnd).1
        exact h1 (hbu ▸ List.mem_map_of_mem (·.uuid) hmem)
    · have hb' : ((toView b).uuid == a.uuid) = false := by
        simpa using hb
      simp only [List.find?_cons, hb']
      have hmem : a ∈ l := by
        rcases List.mem_cons.mp ha with rfl | h
        · exact absurd (by simp [toView]) hb
        · exact h
      exact ih (List.nodup_cons.mp hnd).2 hmem

theorem clockNamesOf_viewsOf (s : ControllerState) (a : TraceFileAnalyzed)
    (hnd : ((analyzedOf s).map (·.uuid)).Nodup) (ha : a ∈ analyzedOf s) :
    clockNamesOf (viewsOf s) a.uuid = a.clocks.map (·.name) := by
  unfold clockNamesOf viewsOf
  rw [find?_toView_of_mem (analyzedOf s) a hnd ha]
  rfl

theorem clockNamesOf_mem_exists (s : ControllerState) (u c : String)
    (hc : c ∈ clockNamesOf (viewsOf s) u) :
    ∃ a, a ∈ analyzedOf s ∧ a.uuid = u ∧ c ∈ a.clocks.map (·.name) := by
  unfold clockNamesOf at hc
  cases hf : (viewsOf s).find? (fun v => v.uuid == u) with
  | none => rw [hf] at hc; simp at hc
  | some v =>
    rw [hf] at hc
    simp only [Option.map_some', Option.getD_some] at hc
    have hvmem : v ∈ viewsOf s := List.mem_of_find?_eq_some hf
    have hpred := List.find?_some hf
    obtain ⟨a, hamem, hav⟩ := List.mem_map.mp hvmem
    refine ⟨a, hamem, ?_, ?_⟩
    · have hvu : v.uuid = u := by simpa using hpred
      rw [← hav] at hvu
      simpa [toView] using hvu
    · have hvn : v.clockNames = a.clocks.map (·.name) := by
        rw [← hav]
        rfl
      rw [← hvn]
      exact hc

/-- C8 amended: after a non-aborting pass, every automatic analyzed
record's written config uses only clock names from the respective clock
lists: a root config's clock is one of the record's own clock names — or
the empty string exactly when the record has no clocks — and a sync
config's from/to clocks coincide and belong to the record's and the target
trace's clock lists respectively. -/
theorem c8_written_clocks_well_formed (s : ControllerState)
    (hnd : ((analyzedOf s).map (·.uuid)).Nodup)
    (hcount : (manualRootsOf s).length ≤ 1)
    (i : Nat) (t : TraceFile) (fmt : String) (clocks : List ClockInfo)
    (cfg : SyncConfig)
    (hget : (recomputeSync s).wrappers.get? i = some t)
    (hst : t.status = .analyzed fmt clocks .automatic cfg) :
    WrittenConfigOk s clocks cfg := by
  rw [recomputeSync_wrappers, if_neg (by omega), List.get?_eq_getElem?,
    List.getElem?_map] at hget
  cases h0 : s.wrappers[i]? with
  | none => rw [h0] at hget; simp at hget
  | some t0 =>
    rw [h0, Option.map_some'] at hget
    obtain rfl : applyNewConfigs (planOf s) t0 = t := by
      exact Option.some.inj hget
    have ht0mem : t0 ∈ s.wrappers := List.getElem?_mem h0
    obtain ⟨u0, f0, st0⟩ := t0
    cases st0 with
    | notAnalyzed => simp [applyNewConfigs] at hst
    | analyzing p => simp [applyNewConfigs] at hst
    | error m => simp [applyNewConfigs] at hst
    | analyzed fmt0 clocks0 mode0 cfg0 =>
      cases mode0 with
      | manual =>
        rw [applyNewConfigs_manual] at hst
        simp at hst
      | automatic =>
        rw [applyNewConfigs_automatic] at hst
        obtain ⟨hfmt, hclocks, -, hcfg⟩ := TraceStatus.analyzed.inj hst
        rw [← hclocks, ← hcfg]
        have hamem :
            (⟨u0, f0, fmt0, clocks0, .automatic, cfg0⟩ : TraceFileAnalyzed) ∈
              analyzedOf s :=
          List.mem_filterMap.mpr
            ⟨⟨u0, f0, .analyzed fmt0 clocks0 .automatic cfg0⟩, ht0mem, rfl⟩
        have hcn : clockNamesOf (viewsOf s) u0 = clocks0.map (·.name) := by
          have := clockNamesOf_viewsOf s ⟨u0, f0, fmt0, clocks0, .automatic, cfg0⟩
            hnd hamem
          simpa using this
        cases hfind : (planOf s).find? (fun p => p.1 == u0) with
        | none =>
          simp only [Option.map_none', Option.getD_none]
          cases hcl : clocks0 with
          | nil => exact Or.inr ⟨by simp [hcl], rfl⟩
          | cons c cs => exact Or.inl (by simp [hcl])
        | some pr =>
          simp only [Option.map_some', Option.getD_some]
          have hprmem : pr ∈ planOf s := List.mem_of_find?_eq_some hfind
          have hgood := planOf_good s pr hprmem
          have hpru : pr.1 = u0 := by simpa using List.find?_some hfind
          obtain ⟨pu, pcfg⟩ := pr
          simp only at hpru
          subst hpru
          cases pcfg with
          | root c =>
            rcases hgood with hcmem | ⟨hce, hnil⟩
            · exact Or.inl (by rw [← hcn]; exact hcmem)
            · refine Or.inr ⟨hce, ?_⟩
              rw [hcn] at hnil
              exact List.map_eq_nil_iff.mp hnil
          | syncToOther osc =>
            cases osc with
            | none => exact hgood.elim
            | some sc =>
              obtain ⟨htf, hfmem, htmem⟩ := hgood
              refine ⟨htf, by rw [← hcn]; exact hfmem, ?_⟩
              obtain ⟨a, hamem', hau, hcmem'⟩ :=
                clockNamesOf_mem_exists s sc.toTraceUuid sc.fromClock htmem
              exact ⟨a, hamem', hau, htf ▸ hcmem'⟩

theorem asAnalyzed_applyNewConfigs (P : List (String × SyncConfig))
    (t : TraceFile) :
    asAnalyzed (applyNewConfigs P t) = (asAnalyzed t).map (applyAnalyzed P) := by
  obtain ⟨u, fr, st⟩ := t
  cases st with
  | notAnalyzed => rfl
  | analyzing p => rfl
  | error m => rfl
  | analyzed fmt clocks mode cfg => cases mode <;> rfl

theorem applyAnalyzed_uuid (P : List (String × SyncConfig))
    (a : TraceFileAnalyzed) : (applyAnalyzed P a).uuid = a.uuid := by
  unfold applyAnalyzed
  split <;> rfl

theorem applyAnalyzed_syncMode (P : List (String × SyncConfig))
    (a : TraceFileAnalyzed) : (applyAnalyzed P a).syncMode = a.syncMode := by
  unfold applyAnalyzed
  split <;> rfl

theorem applyAnalyzed_manual (P : List (String × SyncConfig))
    (a : TraceFileAnalyzed) (h : a.syncMode = SyncMode.manual) :
    applyAnalyzed P a = a := by
  unfold applyAnalyzed
  rw [h]
  rfl

theorem toView_applyAnalyzed (P : List (String × SyncConfig))
    (a : TraceFileAnalyzed) : toView (applyAnalyzed P a) = toView a := by
  unfold applyAnalyzed toView
  split <;> rfl

theorem filterMap_asAnalyzed_map_apply (P : List (String × SyncConfig))
    (w : List TraceFile) :
    (w.map (applyNewConfigs P)).filterMap asAnalyzed =
      (w.filterMap asAnalyzed).map (applyAnalyzed P) := by
  rw [List.filterMap_map, List.map_filterMap]
  exact congrArg (List.filterMap · w)
    (funext (fun t => asAnalyzed_applyNewConfigs P t))

theorem filter_manual_map_apply (P : List (String × SyncConfig))
    (l : List TraceFileAnalyzed) :
    (l.map (applyAnalyzed P)).filter (fun t => t.syncMode == SyncMode.manual) =
      l.filter (fun t => t.syncMode == SyncMode.manual) := by
  rw [List.filter_map]
  have h1 : l.filter
      ((fun t => t.syncMode == SyncMode.manual) ∘ applyAnalyzed P) =
      l.filter (fun t => t.syncMode == SyncMode.manual) :=
    List.filter_congr (fun a _ => by
      show ((applyAnalyzed P a).syncMode == SyncMode.manual) = _
      rw [applyAnalyzed_syncMode])
  rw [h1]
  have h2 : ∀ a ∈ l.filter (fun t => t.syncMode == SyncMode.manual),
      applyAnalyzed P a = a := by
    intro a ha
    have := (List.mem_filter.mp ha).2
    exact applyAnalyzed_manual P a (by simpa using this)
  rw [List.map_congr_left h2]
  simp

theorem filter_automatic_map_apply (P : List (String × SyncConfig))
    (l : List TraceFileAnalyzed) :
    (l.map (applyAnalyzed P)).filter
        (fun t => t.syncMode == SyncMode.automatic) =
      (l.filter (fun t => t.syncMode == SyncMode.automatic)).map
        (applyAnalyzed P) := by
  rw [List.filter_map]
  have h1 : l.filter
      ((fun t => t.syncMode == SyncMode.automatic) ∘ applyAnalyzed P) =
      l.filter (fun t => t.syncMode == SyncMode.automatic) :=
    List.filter_congr (fun a _ => by
      show ((applyAnalyzed P a).syncMode == SyncMode.automatic) = _
      rw [applyAnalyzed_syncMode])
  rw [h1]

theorem map_toView_map_apply (P : List (String × SyncConfig))
    (l : List TraceFileAnalyzed) :
    (l.map (applyAnalyzed P)).map toView = l.map toView := by
  rw [List.map_map]
  exact List.map_congr_left (fun a _ => toView_applyAnalyzed P a)

theorem foldl_pick_uuid_map (views : List AView)
    (g : TraceFileAnalyzed → TraceFileAnalyzed)
    (hg : ∀ a, (g a).uuid = a.uuid) (ts : List TraceFileAnalyzed)
    (t : TraceFileAnalyzed) :
    ((ts.map g).foldl (fun a b =>
      if degreeOf views b.uuid < degreeOf views a.uuid then a else b)
        (g t)).uuid =
    (ts.foldl (fun a b =>
      if degreeOf views b.uuid < degreeOf views a.uuid then a else b) t).uuid := by
  induction ts generalizing t with
  | nil => exact hg t
  | cons b ts ih =>
    simp only [List.map_cons, List.foldl_cons]
    have hstep : (if degreeOf views (g b).uuid < degreeOf views (g t).uuid
        then g t else g b) =
        g (if degreeOf views b.uuid < degreeOf views t.uuid then t else b) := by
      rw [hg, hg]
      split <;> rfl
    rw [hstep]
    exact ih _

theorem applyNewConfigs_idem (P : List (String × SyncConfig)) (t : TraceFile) :
    applyNewConfigs P (applyNewConfigs P t) = applyNewConfigs P t := by
  obtain ⟨u, fr, st⟩ := t
  cases st with
  | notAnalyzed => rfl
  | analyzing p => rfl
  | error m => rfl
  | analyzed fmt clocks mode cfg => cases mode <;> rfl

/-- C7: `recomputeSync` is idempotent — running it twice in a row on any
controller state yields exactly the state produced by the first run, both
in every record's config and in the global sync error. -/
theorem c7_recompute_idempotent (s : ControllerState) :
    recomputeSync (recomputeSync s) = recomputeSync s := by
  by_cases hc : (manualRootsOf s).length > 1
  · have h1 : recomputeSync s = { s with syncError := some multiRootErrorMessage } := by
      unfold recomputeSync
      rw [if_pos hc]
    rw [h1]
    have hm : manualRootsOf { s with syncError := some multiRootErrorMessage } =
        manualRootsOf s := rfl
    unfold recomputeSync
    rw [hm, if_pos hc]
  · have h1 : recomputeSync s =
        { s with
          syncError := none,
          wrappers := s.wrappers.map (applyNewConfigs (planOf s)) } := by
      unfold recomputeSync
      rw [if_neg hc]
    rw [h1]
    have hanalyzed : analyzedOf
        { s with
          syncError := none,
          wrappers := s.wrappers.map (applyNewConfigs (planOf s)) } =
        (analyzedOf s).map (applyAnalyzed (planOf s)) :=
      filterMap_asAnalyzed_map_apply (planOf s) s.wrappers
    have hmanual : manualTracesOf
        { s with
          syncError := none,
          wrappers := s.wrappers.map (applyNewConfigs (planOf s)) } =
        manualTracesOf s := by
      unfold manualTracesOf
      rw [hanalyzed]
      exact filter_manual_map_apply (planOf s) (analyzedOf s)
    have hroots : manualRootsOf
        { s with
          syncError := none,
          wrappers := s.wrappers.map (applyNewConfigs (planOf s)) } =
        manualRootsOf s := by
      unfold manualRootsOf
      rw [hmanual]
    have hauto : automaticTracesOf
        { s with
          syncError := none,
          wrappers := s.wrappers.map (applyNewConfigs (planOf s)) } =
        (automaticTracesOf s).map (applyAnalyzed (planOf s)) := by
      unfold automaticTracesOf
      rw [hanalyzed]
      exact filter_automatic_map_apply (planOf s) (analyzedOf s)
    have hviews : viewsOf
        { s with
          syncError := none,
          wrappers := s.wrappers.map (applyNewConfigs (planOf s)) } =
        viewsOf s := by
      unfold viewsOf
      rw [hanalyzed]
      exact map_toView_map_apply (planOf s) (analyzedOf s)
    have hheur : tracesForHeuristicOf
        { s with
          syncError := none,
          wrappers := s.wrappers.map (applyNewConfigs (planOf s)) } =
        (tracesForHeuristicOf s).map (applyAnalyzed (planOf s)) := by
      unfold tracesForHeuristicOf
      rw [hauto, hanalyzed, List.length_map]
      split <;> rfl
    have hroot : rootUuidOf
        { s with
          syncError := none,
          wrappers := s.wrappers.map (applyNewConfigs (planOf s)) } =
        rootUuidOf s := by
      unfold rootUuidOf
      rw [hroots, hanalyzed, List.length_map, hviews, hheur]
      by_cases h1c : (manualRootsOf s).length = 1
      · rw [if_pos h1c, if_pos h1c]
      · rw [if_neg h1c, if_neg h1c]
        by_cases h2c : (analyzedOf s).length > 0
        · rw [if_pos h2c, if_pos h2c]
          cases hcands : tracesForHeuristicOf s with
          | nil => rfl
          | cons t ts =>
            simp only [List.map_cons]
            exact congrArg some
              (foldl_pick_uuid_map (viewsOf s) (applyAnalyzed (planOf s))
                (applyAnalyzed_uuid (planOf s)) ts t)
        · rw [if_neg h2c, if_neg h2c]
    have hplan : planOf
        { s with
          syncError := none,
          wrappers := s.wrappers.map (applyNewConfigs (planOf s)) } =
        planOf s := by
      rw [planOf.eq_def, hroot, hviews]
      rfl
    unfold recomputeSync
    rw [hroots, if_neg hc, hplan]
    have hw : (s.wrappers.map (applyNewConfigs (planOf s))).map
        (applyNewConfigs (planOf s)) =
        s.wrappers.map (applyNewConfigs (planOf s)) := by
      rw [List.map_map]
      exact List.map_congr_left (fun t _ => applyNewConfigs_idem (planOf s) t)
    show ControllerState.mk _ _ _ = ControllerState.mk _ _ _
    rw [hw]

theorem c8_written_clocks_well_formed_witness :
    ((analyzedOf exSingleState).map (·.uuid)).Nodup ∧
    (manualRootsOf exSingleState).length ≤ 1 ∧
    ((recomputeSync exSingleState).wrappers.get? 0 =
      some ⟨"u1", ⟨"u1.pftrace", 1⟩,
        .analyzed "Perfetto" [⟨"BOOTTIME", 1⟩] .automatic (.root "BOOTTIME")⟩) ∧
    WrittenConfigOk exSingleState [⟨"BOOTTIME", 1⟩] (.root "BOOTTIME") :=
  ⟨by decide, by decide, by decide,
    c8_written_clocks_well_formed exSingleState (by decide) (by decide) 0
      ⟨"u1", ⟨"u1.pftrace", 1⟩,
        .analyzed "Perfetto" [⟨"BOOTTIME", 1⟩] .automatic (.root "BOOTTIME")⟩
      "Perfetto" [⟨"BOOTTIME", 1⟩] (.root "BOOTTIME") (by decide) rfl⟩
